import Mathlib

/-!
Verification development for the go-builder build orchestrator.

The repository turns a declarative YAML build description into a sequence
of external compiler invocations: it expands environment placeholders,
layers environment maps across scopes, derives per-target output paths,
composes the compiler argument list, and either runs, prints, or delegates
the build to a container runtime.

This file embeds the relevant functions of src/config.go and src/main.go
(plus the container delegation entry point) and proves or refutes the
frozen behavioural claims about them.
-/

set_option maxHeartbeats 1000000

/- ──────────────────────── environment maps ──────────────────────── -/

/-- A Go `map[string]string` represented as a list of key-value pairs,
one concrete enumeration order per value.  Lookup returns the value of
the first entry with the given key; every map produced by the program
has pairwise distinct keys, as Go maps do. -/
abbrev EnvMap := List (String × String)

/-- Key lookup, mirroring a read `m[k]` of a Go string map
(`none` models the missing-key case). -/
def getEnv : EnvMap → String → Option String
  | [], _ => none
  | (k1, v1) :: rest, k => if k1 = k then some v1 else getEnv rest k

/-- Key update, mirroring a Go map assignment `m[k] = v`: the existing
entry is overwritten in place, a new key is appended. -/
def setKey : EnvMap → String → String → EnvMap
  | [], k, v => [(k, v)]
  | (k1, v1) :: rest, k, v =>
      if k1 = k then (k1, v) :: rest else (k1, v1) :: setKey rest k v

/-- First-defined choice between two optional values. -/
def orE (a b : Option String) : Option String :=
  match a with
  | some v => some v
  | none => b

/-- Copying every entry of `l` into `m` in order, mirroring the Go loop
`for k, v := range l \x7b m[k] = v \x7d`; a nil map is the empty list and
contributes nothing. -/
def overlay (m : EnvMap) (l : EnvMap) : EnvMap :=
  l.foldl (fun acc kv => setKey acc kv.1 kv.2) m

/-- From src/config.go, `mergeEnvs`: start from an empty map, copy `g`,
then copy `l`; later writes win key-for-key. -/
def mergeEnvs (g l : EnvMap) : EnvMap := overlay (overlay [] g) l

/-- Modelled from the spec: `mergeEnvLayers` is called by `main` and by
`dockerRun` but its definition is not under src/.  Spec 4.2: start from a
copy of the base process environment, overlay the config-level global
environment, then the per-target (or container-scope) overrides; later
overlays win key-for-key and absent (nil) maps contribute nothing.
Realized with the source helper `mergeEnvs`. -/
def mergeEnvLayers (base global targetEnv : EnvMap) : EnvMap :=
  mergeEnvs (mergeEnvs base global) targetEnv

/- ──────────────────────── lookup lemmas ──────────────────────── -/

theorem orE_assoc (a b c : Option String) :
    orE (orE a b) c = orE a (orE b c) := by
  cases a <;> simp [orE]

theorem orE_none_left (b : Option String) : orE none b = b := rfl

theorem getEnv_setKey_self (m : EnvMap) (k v : String) :
    getEnv (setKey m k v) k = some v := by
  induction m with
  | nil => simp [setKey, getEnv]
  | cons kv rest ih =>
      obtain ⟨k1, v1⟩ := kv
      by_cases h : k1 = k
      · simp [setKey, getEnv, h]
      · simp [setKey, getEnv, h, ih]

theorem getEnv_setKey_ne (m : EnvMap) (k v k' : String) (h : k ≠ k') :
    getEnv (setKey m k v) k' = getEnv m k' := by
  induction m with
  | nil => simp [setKey, getEnv, h]
  | cons kv rest ih =>
      obtain ⟨k1, v1⟩ := kv
      by_cases h1 : k1 = k
      · subst h1
        simp [setKey, getEnv, h]
      · simp [setKey, getEnv, h1, ih]

theorem getEnv_append (a b : EnvMap) (k : String) :
    getEnv (a ++ b) k = orE (getEnv a k) (getEnv b k) := by
  induction a with
  | nil => simp [getEnv, orE]
  | cons kv rest ih =>
      obtain ⟨k1, v1⟩ := kv
      by_cases h : k1 = k
      · simp [getEnv, h, orE]
      · simp [getEnv, h, ih]

theorem getEnv_none_of_not_mem (a : EnvMap) (k : String)
    (h : k ∉ a.map Prod.fst) : getEnv a k = none := by
  induction a with
  | nil => rfl
  | cons kv rest ih =>
      obtain ⟨k1, v1⟩ := kv
      simp only [List.map_cons, List.mem_cons] at h
      push_neg at h
      have h1 : k1 ≠ k := fun e => h.1 e.symm
      simp [getEnv, h1, ih h.2]

theorem getEnv_overlay (l m : EnvMap) (k : String) :
    getEnv (overlay m l) k = orE (getEnv l.reverse k) (getEnv m k) := by
  induction l generalizing m with
  | nil => simp [overlay, getEnv, orE]
  | cons kv rest ih =>
      obtain ⟨k1, v1⟩ := kv
      have hfold : overlay m ((k1, v1) :: rest) = overlay (setKey m k1 v1) rest := by
        simp [overlay]
      rw [hfold, ih]
      have hrev : ((k1, v1) :: rest).reverse = rest.reverse ++ [(k1, v1)] := by
        simp
      rw [hrev, getEnv_append, orE_assoc]
      by_cases h : k1 = k
      · subst h
        rw [getEnv_setKey_self]
        have h1 : getEnv [(k1, v1)] k1 = some v1 := by simp [getEnv]
        rw [h1]
        cases getEnv rest.reverse k1 <;> simp [orE]
      · rw [getEnv_setKey_ne m k1 v1 k h]
        have h1 : getEnv [(k1, v1)] k = none := by simp [getEnv, h]
        rw [h1]
        cases getEnv rest.reverse k <;> simp [orE]

theorem getEnv_reverse_of_nodup (l : EnvMap) (k : String)
    (h : (l.map Prod.fst).Nodup) : getEnv l.reverse k = getEnv l k := by
  induction l with
  | nil => rfl
  | cons kv rest ih =>
      obtain ⟨k1, v1⟩ := kv
      simp only [List.map_cons, List.nodup_cons] at h
      rw [List.reverse_cons, getEnv_append, ih h.2]
      by_cases hk : k1 = k
      · subst hk
        rw [getEnv_none_of_not_mem rest k1 h.1]
        simp [getEnv, orE]
      · simp [getEnv, hk, orE]
        cases getEnv rest k <;> simp [orE]

/-- Lookup in an overlay of a layer with pairwise distinct keys: the
layer wins where it defines the key, the underlying map answers
otherwise. -/
theorem getEnv_overlay_nodup (l m : EnvMap) (k : String)
    (h : (l.map Prod.fst).Nodup) :
    getEnv (overlay m l) k = orE (getEnv l k) (getEnv m k) := by
  rw [getEnv_overlay, getEnv_reverse_of_nodup l k h]

theorem orE_none_right (a : Option String) : orE a none = a := by
  cases a <;> rfl

theorem orE_isSome (a b : Option String) :
    (orE a b).isSome ↔ (a.isSome ∨ b.isSome) := by
  cases a <;> simp [orE]

theorem getEnv_isSome_iff (a : EnvMap) (k : String) :
    (getEnv a k).isSome ↔ k ∈ a.map Prod.fst := by
  induction a with
  | nil => simp [getEnv]
  | cons kv rest ih =>
      obtain ⟨k1, v1⟩ := kv
      by_cases h : k1 = k
      · simp [getEnv, h]
      · simp [getEnv, h, ih]
        intro e
        exact absurd e.symm h

theorem keys_setKey (m : EnvMap) (k v : String) :
    (setKey m k v).map Prod.fst
      = if k ∈ m.map Prod.fst then m.map Prod.fst else m.map Prod.fst ++ [k] := by
  induction m with
  | nil => simp [setKey]
  | cons kv rest ih =>
      obtain ⟨k1, v1⟩ := kv
      by_cases h : k1 = k
      · subst h
        simp [setKey]
      · have h2 : ¬ (k = k1) := fun e => h e.symm
        simp only [setKey, if_neg h, List.map_cons, ih, List.mem_cons]
        by_cases hm : k ∈ rest.map Prod.fst
        · simp [hm, h2]
        · simp [hm, h2]

theorem nodup_keys_setKey (m : EnvMap) (k v : String)
    (h : (m.map Prod.fst).Nodup) : ((setKey m k v).map Prod.fst).Nodup := by
  rw [keys_setKey]
  by_cases hm : k ∈ m.map Prod.fst
  · simpa [hm]
  · simp only [if_neg hm]
    exact List.Nodup.append h (List.nodup_singleton k)
      (by simpa [List.disjoint_singleton] using hm)

theorem nodup_keys_overlay (l m : EnvMap)
    (h : (m.map Prod.fst).Nodup) : ((overlay m l).map Prod.fst).Nodup := by
  induction l generalizing m with
  | nil => simpa [overlay]
  | cons kv rest ih =>
      have hfold : overlay m (kv :: rest) = overlay (setKey m kv.1 kv.2) rest := by
        simp [overlay]
      rw [hfold]
      exact ih _ (nodup_keys_setKey m kv.1 kv.2 h)

theorem nodup_keys_mergeEnvs (g l : EnvMap) :
    ((mergeEnvs g l).map Prod.fst).Nodup :=
  nodup_keys_overlay l _ (nodup_keys_overlay g [] (by simp))

theorem getEnv_overlay_nil (x : EnvMap) (k : String)
    (hx : (x.map Prod.fst).Nodup) : getEnv (overlay [] x) k = getEnv x k := by
  rw [getEnv_overlay_nodup x [] k hx]
  show orE (getEnv x k) none = getEnv x k
  exact orE_none_right _

/-- Lookup in the source two-layer merge: `l` wins, then `g` (layers have
pairwise distinct keys, as Go maps do). -/
theorem getEnv_mergeEnvs (g l : EnvMap) (k : String)
    (hg : (g.map Prod.fst).Nodup) (hl : (l.map Prod.fst).Nodup) :
    getEnv (mergeEnvs g l) k = orE (getEnv l k) (getEnv g k) := by
  show getEnv (overlay (overlay [] g) l) k = _
  rw [getEnv_overlay_nodup l _ k hl, getEnv_overlay_nil g k hg]

/-- Lookup in the three-layer composition: per-target wins, then global,
then the base process environment (layers have pairwise distinct keys,
as Go maps do). -/
theorem getEnv_mergeEnvLayers (base global targetEnv : EnvMap) (k : String)
    (hb : (base.map Prod.fst).Nodup) (hg : (global.map Prod.fst).Nodup)
    (ht : (targetEnv.map Prod.fst).Nodup) :
    getEnv (mergeEnvLayers base global targetEnv) k
      = orE (getEnv targetEnv k) (orE (getEnv global k) (getEnv base k)) := by
  show getEnv (mergeEnvs (mergeEnvs base global) targetEnv) k = _
  rw [getEnv_mergeEnvs _ _ _ (nodup_keys_mergeEnvs base global) ht,
    getEnv_mergeEnvs _ _ _ hb hg]

/- ──────────────────────── data model ──────────────────────── -/

/-- One declared build target, from src/config.go `Target` (the container
snapshot additionally carries a tri-state per-target verify-static
override). -/
structure Target where
  os : String
  arch : String
  output : String
  env : EnvMap
  verifyStatic : Option Bool := none
deriving DecidableEq

/-- Compiler settings, from src/config.go `BuildSection`.  `vars` is a Go
map carried with one concrete enumeration order. -/
structure BuildSettings where
  tags : List String
  ldflags : List String
  vars : EnvMap
  gcflags : String
  asmflags : String
  mod : String
  race : Bool
  trimpath : Bool
  verbose : Bool
  debug : Bool
  verifyStatic : Bool := false
deriving DecidableEq

/-- Container settings, from the `docker` section of the configuration. -/
structure DockerSpec where
  image : String
  workdir : String
  shell : String
  setup : List String
  env : EnvMap
deriving DecidableEq

/-- Root configuration, from src/config.go `Config`. -/
structure Config where
  buildDir : String
  source : String
  output : String
  env : EnvMap
  build : BuildSettings
  targets : List Target
  docker : Option DockerSpec := none
deriving DecidableEq

/- ──────────────── per-target environment composition ──────────────── -/

/-- From the matrix loop of `main` in src/main.go: compose the base,
global and per-target layers, then assign the GOOS and GOARCH selectors
from the target. -/
def targetBuildEnv (base global : EnvMap) (t : Target) : EnvMap :=
  setKey (setKey (mergeEnvLayers base global t.env) "GOOS" t.os) "GOARCH" t.arch

/-- From the zero-target branch of `main` in src/main.go: the host build
environment is the base and global layers only — no per-target layer and
no GOOS or GOARCH assignment. -/
def hostBuildEnv (base global : EnvMap) : EnvMap :=
  mergeEnvLayers base global []

/-- From `dockerRun` in src/main.go: the environment forwarded to the
container runtime as discrete `-e` assignments is the overlay of the
config-level global environment and the container-scope environment over
a nil base; the host process environment is not passed. -/
def dockerForwardEnv (global scopeEnv : EnvMap) : EnvMap :=
  mergeEnvLayers [] global scopeEnv

/-- From `dockerRun` in src/main.go: one `-e key=value` argument pair per
entry of the forwarded environment, in enumeration order. -/
def dockerEnvArgs (m : EnvMap) : List String :=
  m.foldl (fun acc kv => acc ++ ["-e", kv.1 ++ "=" ++ kv.2]) []

/- ──────────────────────── claim C1 ──────────────────────── -/

/-- C1: for all base (process), global (config) and per-target
environment maps, the composed environment contains exactly the keys of
the union of the three layers, and on any key the per-target value wins
over the global value, which wins over the base value; in particular
global CGO_ENABLED=0 with target CGO_ENABLED=1 composes to
CGO_ENABLED=1. -/
theorem mergeEnvLayers_precedence (base global targetEnv : EnvMap) (k : String)
    (hb : (base.map Prod.fst).Nodup) (hg : (global.map Prod.fst).Nodup)
    (ht : (targetEnv.map Prod.fst).Nodup) :
    getEnv (mergeEnvLayers base global targetEnv) k
      = orE (getEnv targetEnv k) (orE (getEnv global k) (getEnv base k))
    ∧ ((getEnv (mergeEnvLayers base global targetEnv) k).isSome
        ↔ (k ∈ targetEnv.map Prod.fst ∨ k ∈ global.map Prod.fst
            ∨ k ∈ base.map Prod.fst))
    ∧ getEnv (mergeEnvLayers [] [("CGO_ENABLED", "0")] [("CGO_ENABLED", "1")])
        "CGO_ENABLED" = some "1" := by
  refine ⟨getEnv_mergeEnvLayers base global targetEnv k hb hg ht, ?_, by decide⟩
  rw [getEnv_mergeEnvLayers base global targetEnv k hb hg ht]
  rw [orE_isSome, orE_isSome, getEnv_isSome_iff, getEnv_isSome_iff,
    getEnv_isSome_iff]

/-- C1 witness: the precedence theorem applied to the scenario maps, at
the colliding key. -/
theorem mergeEnvLayers_precedence_witness :
    getEnv (mergeEnvLayers [("PATH", "p")] [("CGO_ENABLED", "0")]
        [("CGO_ENABLED", "1")]) "CGO_ENABLED"
      = orE (getEnv [("CGO_ENABLED", "1")] "CGO_ENABLED")
          (orE (getEnv [("CGO_ENABLED", "0")] "CGO_ENABLED")
            (getEnv [("PATH", "p")] "CGO_ENABLED")) :=
  (mergeEnvLayers_precedence [("PATH", "p")] [("CGO_ENABLED", "0")]
    [("CGO_ENABLED", "1")] "CGO_ENABLED"
    (by decide) (by decide) (by decide)).1

/- ──────────────────────── claim C10 ──────────────────────── -/

/-- C10: the environment forwarded to the container runtime is exactly
the union of the global config environment and the container-scope
environment, container-scope value winning on collisions; a key in
neither layer (for example one set only in the host process environment)
is not forwarded. -/
theorem dockerForwardEnv_exact (global scopeEnv : EnvMap) (k : String)
    (hg : (global.map Prod.fst).Nodup) (hs : (scopeEnv.map Prod.fst).Nodup) :
    getEnv (dockerForwardEnv global scopeEnv) k
      = orE (getEnv scopeEnv k) (getEnv global k)
    ∧ ((getEnv (dockerForwardEnv global scopeEnv) k).isSome
        ↔ (k ∈ scopeEnv.map Prod.fst ∨ k ∈ global.map Prod.fst)) := by
  have h := getEnv_mergeEnvLayers [] global scopeEnv k (by simp) hg hs
  constructor
  · rw [show dockerForwardEnv global scopeEnv
        = mergeEnvLayers [] global scopeEnv from rfl, h]
    show orE (getEnv scopeEnv k) (orE (getEnv global k) none) = _
    rw [orE_none_right]
  · rw [show dockerForwardEnv global scopeEnv
        = mergeEnvLayers [] global scopeEnv from rfl, h]
    rw [orE_isSome, orE_isSome, getEnv_isSome_iff, getEnv_isSome_iff]
    simp [getEnv]

/-- C10 witness: the forwarding theorem applied to a concrete global and
container-scope environment, at the colliding key. -/
theorem dockerForwardEnv_exact_witness :
    (getEnv (dockerForwardEnv [("CGO_ENABLED", "1")]
        [("GOPRIVATE", "x"), ("CGO_ENABLED", "0")]) "CGO_ENABLED"
      = orE (getEnv [("GOPRIVATE", "x"), ("CGO_ENABLED", "0")] "CGO_ENABLED")
          (getEnv [("CGO_ENABLED", "1")] "CGO_ENABLED"))
    ∧ getEnv (dockerForwardEnv [("CGO_ENABLED", "1")]
        [("GOPRIVATE", "x"), ("CGO_ENABLED", "0")]) "HOME" = none :=
  ⟨(dockerForwardEnv_exact [("CGO_ENABLED", "1")]
      [("GOPRIVATE", "x"), ("CGO_ENABLED", "0")] "CGO_ENABLED"
      (by decide) (by decide)).1, by decide⟩

/- ──────────────────────── claim C6 ──────────────────────── -/

/-- A key absent from both the base and the global layer is absent from
the host build environment: the zero-target branch adds nothing of its
own. -/
theorem getEnv_hostBuildEnv_none (base global : EnvMap) (k : String)
    (hb : k ∉ base.map Prod.fst) (hg : k ∉ global.map Prod.fst) :
    getEnv (hostBuildEnv base global) k = none := by
  have hbrev : getEnv base.reverse k = none := by
    apply getEnv_none_of_not_mem
    simp only [List.map_reverse, List.mem_reverse]
    exact hb
  have hgrev : getEnv global.reverse k = none := by
    apply getEnv_none_of_not_mem
    simp only [List.map_reverse, List.mem_reverse]
    exact hg
  show getEnv (overlay [] (mergeEnvs base global)) k = none
  rw [getEnv_overlay_nil _ _ (nodup_keys_mergeEnvs base global)]
  show getEnv (overlay (overlay [] base) global) k = none
  rw [getEnv_overlay, hgrev, orE_none_left, getEnv_overlay, hbrev]
  rfl

/-- C6 counterexample: in the zero-target host branch the composed
environment receives no GOOS or GOARCH assignment — with an empty
process environment and no global environment, both selectors are absent
rather than mapped to the host platform and architecture identifiers. -/
theorem hostBuildEnv_no_goos_counterexample :
    getEnv (hostBuildEnv [] []) "GOOS" = none
    ∧ ¬ getEnv (hostBuildEnv [] []) "GOOS" = some "linux"
    ∧ getEnv (hostBuildEnv [] []) "GOARCH" = none
    ∧ ¬ getEnv (hostBuildEnv [] []) "GOARCH" = some "amd64" := by
  refine ⟨by decide, by decide, by decide, by decide⟩

/-- C6 (amended): for every declared target the composed environment
maps GOOS to the target platform and GOARCH to the target architecture;
the implicit host target receives no GOOS or GOARCH injection — its
environment has either key only when the base or global layer provides
it. -/
theorem targetBuildEnv_goos_goarch (base global : EnvMap) (t : Target) :
    getEnv (targetBuildEnv base global t) "GOOS" = some t.os
    ∧ getEnv (targetBuildEnv base global t) "GOARCH" = some t.arch
    ∧ ("GOOS" ∉ base.map Prod.fst → "GOOS" ∉ global.map Prod.fst →
        getEnv (hostBuildEnv base global) "GOOS" = none)
    ∧ ("GOARCH" ∉ base.map Prod.fst → "GOARCH" ∉ global.map Prod.fst →
        getEnv (hostBuildEnv base global) "GOARCH" = none) := by
  refine ⟨?_, ?_, ?_, ?_⟩
  · show getEnv (setKey (setKey _ "GOOS" t.os) "GOARCH" t.arch) "GOOS" = _
    rw [getEnv_setKey_ne _ _ _ _ (by decide), getEnv_setKey_self]
  · exact getEnv_setKey_self _ _ _
  · exact getEnv_hostBuildEnv_none base global "GOOS"
  · exact getEnv_hostBuildEnv_none base global "GOARCH"

/-- C6 witness: the amended theorem applied to a concrete target and
concrete base and global layers, exercising both host-side
implications. -/
theorem targetBuildEnv_goos_goarch_witness :
    getEnv (targetBuildEnv [("PATH", "p")] [("CGO_ENABLED", "0")]
        ⟨"windows", "amd64", "", [("CC", "gcc")], none⟩) "GOOS" = some "windows"
    ∧ getEnv (hostBuildEnv [("PATH", "p")] [("CGO_ENABLED", "0")]) "GOOS" = none
    ∧ getEnv (hostBuildEnv [("PATH", "p")] [("CGO_ENABLED", "0")]) "GOARCH"
        = none :=
  ⟨(targetBuildEnv_goos_goarch [("PATH", "p")] [("CGO_ENABLED", "0")]
      ⟨"windows", "amd64", "", [("CC", "gcc")], none⟩).1,
   (targetBuildEnv_goos_goarch [("PATH", "p")] [("CGO_ENABLED", "0")]
      ⟨"windows", "amd64", "", [("CC", "gcc")], none⟩).2.2.1
     (by decide) (by decide),
   (targetBuildEnv_goos_goarch [("PATH", "p")] [("CGO_ENABLED", "0")]
      ⟨"windows", "amd64", "", [("CC", "gcc")], none⟩).2.2.2
     (by decide) (by decide)⟩

/- ──────────────────────── path helpers ──────────────────────── -/

/-- Split a character list at every slash, mirroring splitting a path
into components ("a/b" gives ["a", "b"], a leading or doubled slash
gives empty components). -/
def splitSlash : List Char → List (List Char)
  | [] => [[]]
  | c :: rest =>
      let r := splitSlash rest
      if c = '/' then [] :: r
      else
        match r with
        | h :: t => (c :: h) :: t
        | [] => [[c]]

/-- Join components with slashes (inverse direction of `splitSlash`). -/
def joinSlash : List (List Char) → List Char
  | [] => []
  | [x] => x
  | x :: rest => x ++ '/' :: joinSlash rest

/-- Model of Go `path/filepath.Clean` on Unix: drop empty and dot
components, resolve dot-dot against the component stack (keeping
dot-dot at the start of a relative path, dropping it at the root), and
render "." for an empty relative result. -/
def cleanChars (p : List Char) : List Char :=
  if p = [] then ['.']
  else
    let rooted := p.head? = some '/'
    let stack := (splitSlash p).foldl
      (fun st c =>
        if c = [] ∨ c = ['.'] then st
        else if c = ['.', '.'] then
          match st.getLast? with
          | some l => if l = ['.', '.'] then st ++ [c] else st.dropLast
          | none => if rooted then [] else [['.', '.']]
        else st ++ [c]) []
    let body := joinSlash stack
    if rooted then '/' :: body
    else if body = [] then ['.'] else body

/-- Model of Go `path/filepath.Join` on Unix: join the elements from the
first non-empty one with slashes, then clean; all-empty input gives the
empty string. -/
def goJoin (elems : List String) : String :=
  match elems.dropWhile (fun e => e = "") with
  | [] => ""
  | rest => String.mk (cleanChars (joinSlash (rest.map String.data)))

/-- Model of Go `path/filepath.Base`: strip trailing slashes and return
the last path component ("." for the empty path, "/" for an all-slash
path). -/
def goBase (p : String) : String :=
  if p = "" then "."
  else
    let r := p.data.reverse.dropWhile (fun c => c == '/')
    if r = [] then "/"
    else String.mk (r.takeWhile (fun c => c != '/')).reverse

/-- Model of Go `strings.HasSuffix`: the string is at least as long as
the pattern and its tail of that length equals the pattern. -/
def hasSuffix (s pat : String) : Bool :=
  decide (pat.data.length ≤ s.data.length) &&
  decide (s.data.drop (s.data.length - pat.data.length) = pat.data)

theorem drop_length_append (x y : List Char) : (x ++ y).drop x.length = y := by
  induction x with
  | nil => rfl
  | cons c rest ih => simp [ih]

/-- Appending a pattern always yields a string with that pattern as a
suffix. -/
theorem hasSuffix_append (x pat : String) : hasSuffix (x ++ pat) pat = true := by
  have hdata : (x ++ pat).data = x.data ++ pat.data := String.data_append x pat
  simp only [hasSuffix, hdata, List.length_append]
  have h1 : x.data.length + pat.data.length - pat.data.length = x.data.length := by
    omega
  rw [h1, drop_length_append]
  have h2 : pat.data.length ≤ x.data.length + pat.data.length := by omega
  simp [h2]

/- ──────────────────── output path resolution ──────────────────── -/

/-- From `main` in src/main.go: the base output name is the configured
output name, defaulting to the base of the source path. -/
def baseOutputName (cfg : Config) : String :=
  if cfg.output ≠ "" then cfg.output else goBase cfg.source

/-- From the matrix loop of `main` in src/main.go: a target with a
non-empty explicit output wins; otherwise the path is
buildDir/os/arch/baseName, with ".exe" appended when the target platform
is "windows" and the derived path does not already end in ".exe". -/
def targetOut (buildDir baseName : String) (t : Target) : String :=
  if t.output ≠ "" then t.output
  else
    let out := goJoin [buildDir, t.os, t.arch, baseName]
    if t.os = "windows" ∧ hasSuffix out ".exe" = false then out ++ ".exe" else out

/-- From the zero-target branch of `main` in src/main.go: the host build
output path, derived from the host platform and architecture. -/
def hostOut (cfg : Config) (hostOS hostArch : String) : String :=
  let out := goJoin [cfg.buildDir, hostOS, hostArch, baseOutputName cfg]
  if hostOS = "windows" ∧ hasSuffix out ".exe" = false then out ++ ".exe" else out

/-- One host-side compiler invocation: its composed environment and its
output path. -/
abbrev Invocation := EnvMap × String

/-- From `main` in src/main.go: the per-target resolution pass — one
invocation per declared target, or a single implicit host invocation
when no target is declared. -/
def resolveTargets (hostOS hostArch : String) (baseEnv : EnvMap)
    (cfg : Config) : List Invocation :=
  if cfg.targets.isEmpty then
    [(hostBuildEnv baseEnv cfg.env, hostOut cfg hostOS hostArch)]
  else
    cfg.targets.map (fun t =>
      (targetBuildEnv baseEnv cfg.env t,
       targetOut cfg.buildDir (baseOutputName cfg) t))

/-- Build settings with every flag off, used by concrete scenarios. -/
def emptyBuild : BuildSettings :=
  { tags := [], ldflags := [], vars := [], gcflags := "", asmflags := "",
    mod := "", race := false, trimpath := false, verbose := false,
    debug := false, verifyStatic := false }

/-- The two-target scenario configuration: output "app", targets
linux/amd64 and windows/amd64. -/
def appCfg : Config :=
  { buildDir := "builds", source := "./cmd/app", output := "app",
    env := [], build := emptyBuild,
    targets := [{ os := "linux", arch := "amd64", output := "", env := [] },
                { os := "windows", arch := "amd64", output := "", env := [] }],
    docker := none }

/- ──────────────────────── claim C2 ──────────────────────── -/

/-- C2: a non-empty explicit output override wins; otherwise the output
path is buildDir/os/arch/baseName with ".exe" appended exactly when the
platform is "windows" and the derived path does not already end in
".exe" (so the suffix is appended at most once); the two-target scenario
yields builds/linux/amd64/app and builds/windows/amd64/app.exe. -/
theorem targetOut_spec (dir bn : String) (t : Target) :
    (t.output ≠ "" → targetOut dir bn t = t.output)
    ∧ (t.output = "" → t.os ≠ "windows" →
        targetOut dir bn t = goJoin [dir, t.os, t.arch, bn])
    ∧ (t.output = "" → t.os = "windows" →
        hasSuffix (targetOut dir bn t) ".exe" = true)
    ∧ (t.output = "" → t.os = "windows" →
        hasSuffix (goJoin [dir, t.os, t.arch, bn]) ".exe" = true →
        targetOut dir bn t = goJoin [dir, t.os, t.arch, bn])
    ∧ (t.output = "" → t.os = "windows" →
        hasSuffix (goJoin [dir, t.os, t.arch, bn]) ".exe" = false →
        targetOut dir bn t = goJoin [dir, t.os, t.arch, bn] ++ ".exe")
    ∧ (resolveTargets "linux" "amd64" [] appCfg).map Prod.snd
        = ["builds/linux/amd64/app", "builds/windows/amd64/app.exe"] := by
  refine ⟨?_, ?_, ?_, ?_, ?_, by decide⟩
  · intro h
    simp [targetOut, h]
  · intro h1 h2
    simp [targetOut, h1, h2]
  · intro h1 h2
    by_cases hs : hasSuffix (goJoin [dir, t.os, t.arch, bn]) ".exe" = true
    · rw [h2] at hs
      simp [targetOut, h1, h2, hs]
    · have hs2 : hasSuffix (goJoin [dir, t.os, t.arch, bn]) ".exe" = false := by
        revert hs
        cases hasSuffix (goJoin [dir, t.os, t.arch, bn]) ".exe" <;> simp
      rw [h2] at hs2
      simp [targetOut, h1, h2, hs2, hasSuffix_append]
  · intro h1 h2 hs
    rw [h2] at hs
    simp [targetOut, h1, h2, hs]
  · intro h1 h2 hs
    rw [h2] at hs
    simp [targetOut, h1, h2, hs]

/-- C2 witness: the output-path theorem applied at the scenario windows
target, with the suffix actually appended. -/
theorem targetOut_spec_witness :
    targetOut "builds" "app"
        { os := "windows", arch := "amd64", output := "", env := [] }
      = goJoin ["builds", "windows", "amd64", "app"] ++ ".exe" :=
  (targetOut_spec "builds" "app"
    { os := "windows", arch := "amd64", output := "", env := [] }).2.2.2.2.1
    rfl rfl (by decide)

/- ──────────────────────── claim C5 ──────────────────────── -/

/-- The same configuration with the linux/amd64 target declared twice. -/
def cfgDup : Config :=
  { buildDir := "builds", source := "./cmd/app", output := "app",
    env := [], build := emptyBuild,
    targets := [{ os := "linux", arch := "amd64", output := "", env := [] },
                { os := "linux", arch := "amd64", output := "", env := [] }],
    docker := none }

/-- C5 counterexample: the resolver performs no uniqueness check — two
identical declared targets resolve to the same filesystem path, so the
output paths of one invocation are not pairwise distinct. -/
theorem resolveTargets_dup_counterexample :
    ((resolveTargets "linux" "amd64" [] cfgDup).map Prod.snd)
      = ["builds/linux/amd64/app", "builds/linux/amd64/app"]
    ∧ ¬ ((resolveTargets "linux" "amd64" [] cfgDup).map Prod.snd).Nodup := by
  constructor <;> decide

/-- C5 (amended): for a declared target list of length N ≥ 1 the
resolver produces exactly N output paths, one per target in declaration
order; the paths are not guaranteed pairwise distinct. -/
theorem resolveTargets_length (hostOS hostArch : String) (baseEnv : EnvMap)
    (cfg : Config) (h : cfg.targets ≠ []) :
    (resolveTargets hostOS hostArch baseEnv cfg).length = cfg.targets.length := by
  cases hc : cfg.targets with
  | nil => exact absurd hc h
  | cons a l => simp [resolveTargets, hc]

/-- C5 witness: the length theorem applied to the two-target scenario
configuration. -/
theorem resolveTargets_length_witness :
    (resolveTargets "linux" "amd64" [] appCfg).length = appCfg.targets.length :=
  resolveTargets_length "linux" "amd64" [] appCfg (by decide)

/- ──────────────────── compiler argument composition ──────────────────── -/

/-- Model of Go `strings.Join`: concatenate the elements with the
separator between consecutive elements. -/
def goStrJoin (sep : String) : List String → String
  | [] => ""
  | [a] => a
  | a :: rest => a ++ sep ++ goStrJoin sep rest

/-- From `composeLdflags` in src/config.go: one `-X 'name=value'` token
per vars entry (rendered with `fmt.Sprintf`). -/
def renderVar (kv : String × String) : String :=
  "-X \x27" ++ kv.1 ++ "=" ++ kv.2 ++ "\x27"

/-- From `composeLdflags` in src/config.go: copy the literal link flags,
append one rendered token per entry of the vars map, and join with
single spaces.  Go ranges over the vars map, whose enumeration order is
unspecified and may differ between two ranges over the same map, so the
enumeration is an explicit argument: a valid enumeration of a map is any
permutation of its entry list. -/
def composeLdflags (ld : List String) (varsEnum : EnvMap) : String :=
  goStrJoin " " (ld ++ varsEnum.map renderVar)

/-- From `runBuild` in src/main.go: the generic flags, in source order —
verbosity, tags, path trim, gc flags, asm flags, module mode, race. -/
def genericFlags (b : BuildSettings) : List String :=
  (if b.verbose then ["-v"] else [])
  ++ (if b.tags ≠ [] then ["-tags", goStrJoin "," b.tags] else [])
  ++ (if b.trimpath then ["-trimpath"] else [])
  ++ (if b.gcflags ≠ "" then ["-gcflags", b.gcflags] else [])
  ++ (if b.asmflags ≠ "" then ["-asmflags", b.asmflags] else [])
  ++ (if b.mod ≠ "" then ["-mod", b.mod] else [])
  ++ (if b.race then ["-race"] else [])

/-- From `runBuild` in src/main.go: the `-ldflags` pair, present only
when the composed link-flags string is non-empty. -/
def ldArgs (b : BuildSettings) (varsEnum : EnvMap) : List String :=
  let lf := composeLdflags b.ldflags varsEnum
  if lf ≠ "" then ["-ldflags", lf] else []

/-- From `runBuild` in src/main.go: the `-o` pair (when the output path
is non-empty) followed by the source path. -/
def tailArgs (output source : String) : List String :=
  (if output ≠ "" then ["-o", output] else []) ++ [source]

/-- From `runBuild` in src/main.go: the complete `go build` argument
list for one invocation, given one enumeration of the vars map. -/
def composeArgs (b : BuildSettings) (varsEnum : EnvMap)
    (source output : String) : List String :=
  ["build"] ++ genericFlags b ++ ldArgs b varsEnum ++ tailArgs output source

theorem goStrJoin_space_eq_empty (l : List String) :
    goStrJoin " " l = "" ↔ (l = [] ∨ l = [""]) := by
  match l with
  | [] => simp [goStrJoin]
  | [a] => simp [goStrJoin]
  | a :: b :: rest =>
      constructor
      · intro h
        exfalso
        have hlen := congrArg String.length h
        rw [show goStrJoin " " (a :: b :: rest)
              = a ++ " " ++ goStrJoin " " (b :: rest) from rfl] at hlen
        rw [String.length_append, String.length_append] at hlen
        have hsp : (" " : String).length = 1 := rfl
        have hemp : ("" : String).length = 0 := rfl
        rw [hsp, hemp] at hlen
        omega
      · intro h
        rcases h with h | h <;> simp at h

theorem goStrJoin_empty_perm (l₁ l₂ : List String) (h : l₁.Perm l₂) :
    (goStrJoin " " l₁ = "" ↔ goStrJoin " " l₂ = "") := by
  rw [goStrJoin_space_eq_empty, goStrJoin_space_eq_empty]
  constructor
  · rintro (h1 | h1)
    · subst h1
      left
      exact h.symm.eq_nil
    · subst h1
      right
      exact List.perm_singleton.mp h.symm
  · rintro (h1 | h1)
    · subst h1
      left
      exact h.eq_nil
    · subst h1
      right
      exact List.perm_singleton.mp h

theorem ldArgs_eq_nil_iff (b : BuildSettings) (o : EnvMap) :
    ldArgs b o = [] ↔ composeLdflags b.ldflags o = "" := by
  by_cases h : composeLdflags b.ldflags o = ""
  · simp [ldArgs, h]
  · simp [ldArgs, h]

/- ──────────────────────── claim C4 ──────────────────────── -/

/-- C4 counterexample: two valid enumerations of the same two-entry vars
map (they are permutations of each other) produce different argument
lists — the rendered `-X` flags inside the single `-ldflags` token swap
order, so composition is not byte-identical across calls. -/
theorem composeArgs_order_counterexample :
    List.Perm [("a", "1"), ("b", "2")] [("b", "2"), ("a", "1")]
    ∧ composeArgs emptyBuild [("a", "1"), ("b", "2")] "./src" "out"
        ≠ composeArgs emptyBuild [("b", "2"), ("a", "1")] "./src" "out" := by
  constructor <;> decide

/-- C4 (amended): for two enumerations of the same vars map, the two
compositions differ at most in the `-ldflags` value — every other token
is produced identically, the `-ldflags` pair is present in one exactly
when it is present in the other, and the joined link-flag pieces are
permutations of each other.  Byte-identical output holds exactly when
the runtime enumerates the map in the same order both times. -/
theorem composeArgs_stable (b : BuildSettings) (src out : String)
    (o₁ o₂ : EnvMap) (hperm : o₁.Perm o₂) :
    composeArgs b o₁ src out
      = ["build"] ++ genericFlags b ++ ldArgs b o₁ ++ tailArgs out src
    ∧ composeArgs b o₂ src out
      = ["build"] ++ genericFlags b ++ ldArgs b o₂ ++ tailArgs out src
    ∧ (ldArgs b o₁ = [] ↔ ldArgs b o₂ = [])
    ∧ (b.ldflags ++ o₁.map renderVar).Perm (b.ldflags ++ o₂.map renderVar) := by
  have hmap : (o₁.map renderVar).Perm (o₂.map renderVar) := hperm.map renderVar
  have happ : (b.ldflags ++ o₁.map renderVar).Perm
      (b.ldflags ++ o₂.map renderVar) := hmap.append_left b.ldflags
  refine ⟨rfl, rfl, ?_, happ⟩
  rw [ldArgs_eq_nil_iff, ldArgs_eq_nil_iff]
  exact goStrJoin_empty_perm _ _ happ

/-- C4 witness: the stability theorem applied to the two concrete
enumerations of the counterexample map. -/
theorem composeArgs_stable_witness :
    (ldArgs emptyBuild [("a", "1"), ("b", "2")] = []
      ↔ ldArgs emptyBuild [("b", "2"), ("a", "1")] = []) :=
  (composeArgs_stable emptyBuild "./src" "out"
    [("a", "1"), ("b", "2")] [("b", "2"), ("a", "1")] (by decide)).2.2.1

/- ──────────────────── execution strategy ──────────────────── -/

/-- From `main` in the container-aware snapshot: the shell command
sequence run inside the container — the configured setup commands
followed by a self-reinvocation with delegation suppressed. -/
def delegatedCmds (d : DockerSpec) : List String :=
  d.setup ++ ["go install github.com/pablolagos/go-builder@latest",
              "go-builder --skip-docker --config=.gobuilder.yml"]

/-- From `main` in the container-aware snapshot: when a docker section
is present and delegation is not suppressed, the whole build is handed
to the container runtime and the function returns before the per-target
loop — the host processes zero targets.  Otherwise the host per-target
resolution runs. -/
def mainExec (cfg : Config) (skipDocker : Bool) (hostOS hostArch : String)
    (baseEnv : EnvMap) : Option (List String) × List Invocation :=
  match cfg.docker, skipDocker with
  | some d, false => (some (delegatedCmds d), [])
  | _, _ => (none, resolveTargets hostOS hostArch baseEnv cfg)

/-- From the matrix loop of `main` in src/main.go: invocations are
attempted in declaration order; a failing invocation (the outcome
oracle models the external process exit: false is a non-zero exit or a
spawn failure) makes `log.Fatalf` terminate the run, so the loop stops
right there.  The result is the list of invocations actually attempted
and whether the whole run succeeded. -/
def buildLoop : List Invocation → (Invocation → Bool) → List Invocation × Bool
  | [], _ => ([], true)
  | inv :: rest, ok =>
      if ok inv then
        let r := buildLoop rest ok
        (inv :: r.1, r.2)
      else ([inv], false)

/- ──────────────────────── claim C8 ──────────────────────── -/

/-- C8: when a container section is present and delegation is not
suppressed, execution delegates to the container runtime (a delegated
command sequence is produced) and the host per-target loop processes
zero targets. -/
theorem mainExec_delegates (cfg : Config) (hostOS hostArch : String)
    (baseEnv : EnvMap) (h : cfg.docker.isSome = true) :
    (mainExec cfg false hostOS hostArch baseEnv).2 = []
    ∧ (mainExec cfg false hostOS hostArch baseEnv).1.isSome = true := by
  match hd : cfg.docker with
  | some d => simp [mainExec, hd]
  | none =>
      rw [hd] at h
      simp at h

/-- A configuration with a docker section, used to witness delegation. -/
def dockerCfg : Config :=
  { buildDir := "builds", source := "./cmd/app", output := "app",
    env := [("CGO_ENABLED", "1")], build := emptyBuild,
    targets := [{ os := "linux", arch := "amd64", output := "", env := [] }],
    docker := some { image := "golang:1.23-alpine", workdir := "/work",
                     shell := "sh", setup := ["apk add git"], env := [] } }

/-- C8 witness: the delegation theorem applied to a configuration with a
docker section and delegation not suppressed. -/
theorem mainExec_delegates_witness :
    (mainExec dockerCfg false "linux" "amd64" []).2 = [] :=
  (mainExec_delegates dockerCfg "linux" "amd64" [] (by decide)).1

/- ──────────────────────── claim C9 ──────────────────────── -/

/-- C9: if every invocation before index i succeeds and the invocation
at index i fails (non-zero exit or spawn failure), the loop attempts
exactly the invocations up to and including i — no later target is
processed — and the run ends in failure. -/
theorem buildLoop_failFast (invs : List Invocation) (ok : Invocation → Bool)
    (i : Nat) (hi : i < invs.length)
    (hok : ∀ j, (hj : j < i) → ok (invs.get ⟨j, Nat.lt_trans hj hi⟩) = true)
    (hfail : ok (invs.get ⟨i, hi⟩) = false) :
    buildLoop invs ok = (invs.take (i + 1), false) := by
  induction invs generalizing i with
  | nil => exact absurd hi (by simp)
  | cons inv rest ih =>
      cases i with
      | zero =>
          have h0 : ok inv = false := hfail
          simp [buildLoop, h0]
      | succ n =>
          have h0 : ok inv = true := hok 0 (Nat.succ_pos n)
          have hn : n < rest.length := by
            have := hi
            simp at this
            omega
          have hok2 : ∀ j, (hj : j < n) →
              ok (rest.get ⟨j, Nat.lt_trans hj hn⟩) = true := by
            intro j hj
            exact hok (j + 1) (by omega)
          have hfail2 : ok (rest.get ⟨n, hn⟩) = false := hfail
          have hrec := ih n hn hok2 hfail2
          simp [buildLoop, h0, hrec]

/-- C9 witness: a three-invocation run whose second invocation fails
attempts exactly the first two invocations and fails overall. -/
theorem buildLoop_failFast_witness :
    buildLoop [([], "a"), ([], "b"), ([], "c")] (fun inv => inv.2 == "a")
      = ([([], "a"), ([], "b")], false) :=
  buildLoop_failFast [([], "a"), ([], "b"), ([], "c")]
    (fun inv => inv.2 == "a") 1 (by decide)
    (fun j hj => by
      have hj0 : j = 0 := by omega
      subst hj0
      rfl)
    (by decide)

/- ──────────────────── placeholder expansion ──────────────────── -/

/-- Model of Go `os.Expand` shell-special variable characters. -/
def isShellSpecialVar (c : Char) : Bool :=
  c == '*' || c == '#' || c == '$' || c == '@' || c == '!' || c == '?' ||
  c == '-' || (decide ('0' ≤ c) && decide (c ≤ '9'))

/-- Model of Go `os.Expand` name characters: letters, digits and
underscore. -/
def isAlphaNum (c : Char) : Bool :=
  c == '_' || (decide ('0' ≤ c) && decide (c ≤ '9')) ||
  (decide ('a' ≤ c) && decide (c ≤ 'z')) ||
  (decide ('A' ≤ c) && decide (c ≤ 'Z'))

/-- Index of the first closing brace, if any. -/
def findClose : List Char → Option Nat
  | [] => none
  | c :: rest => if c = '\x7d' then some 0 else (findClose rest).map (· + 1)

/-- The brace-scanning arm of Go `os.Expand` getShellName: scan for the
closing brace after an opening brace; an immediately closing brace is
bad syntax eating two characters, a missing closing brace is bad syntax
eating one character. -/
def bracePart (rest : List Char) : String × Nat :=
  match findClose rest with
  | none => ("", 1)
  | some i => if i = 0 then ("", 2) else (String.mk (rest.take i), i + 2)

/-- Model of Go `os.Expand` getShellName: the reference name starting at
the character after a dollar sign, and the number of characters it
spans. -/
def getShellName (s : List Char) : String × Nat :=
  match s with
  | [] => ("", 0)
  | c :: rest =>
      if c = '\x7b' then
        match rest with
        | c1 :: c2 :: _ =>
            if isShellSpecialVar c1 && (c2 == '\x7d') then (String.mk [c1], 3)
            else bracePart rest
        | _ => bracePart rest
      else if isShellSpecialVar c then (String.mk [c], 1)
      else
        let n := s.takeWhile isAlphaNum
        (String.mk n, n.length)

/-- Model of Go `os.Expand`: scan for dollar signs, replace each
well-formed reference by the mapping of its name, keep a dollar sign
not followed by a name, and silently consume the characters of
syntactically invalid references. -/
def goExpand (mapping : String → String) : List Char → List Char
  | [] => []
  | c :: rest =>
      if c = '$' then
        if rest = [] then [c]
        else
          let p := getShellName rest
          if p.1 = "" ∧ 0 < p.2 then goExpand mapping (rest.drop p.2)
          else if p.1 = "" then c :: goExpand mapping rest
          else (mapping p.1).data ++ goExpand mapping (rest.drop p.2)
      else c :: goExpand mapping rest
termination_by l => l.length
decreasing_by
  all_goals simp [List.length_drop]
  all_goals omega

/-- Index of the first ":-" occurrence, modelling
`strings.Index(k, ":-")`. -/
def indexOfColonDash : List Char → Option Nat
  | [] => none
  | c :: rest =>
      if c = ':' ∧ rest.head? = some '-' then some 0
      else (indexOfColonDash rest).map (· + 1)

/-- From the anonymous mapping function inside `expandEnv` in
src/config.go: a name containing ":-" splits into a variable name and a
default; the environment value is used when the variable is set
non-empty, the default otherwise; without ":-" the lookup falls back to
the empty string. -/
def expandMapping (env : EnvMap) (k : String) : String :=
  match indexOfColonDash k.data with
  | some i =>
      let name := String.mk (k.data.take i)
      let defv := String.mk (k.data.drop (i + 2))
      match getEnv env name with
      | some v => if v ≠ "" then v else defv
      | none => defv
  | none => (getEnv env k).getD ""

/-- From `expandEnv` in src/config.go: expansion of one string against a
process environment snapshot (`expandEnv` applies this to every string
field of the configuration). -/
def expandStr (env : EnvMap) (s : String) : String :=
  String.mk (goExpand (expandMapping env) s.data)

/-- From `expandEnv` in src/config.go: the derived configuration with
every string field expanded (environment maps are rebuilt with expanded
keys and values). -/
def expandConfig (env : EnvMap) (cfg : Config) : Config :=
  { buildDir := expandStr env cfg.buildDir
    source := expandStr env cfg.source
    output := expandStr env cfg.output
    env := overlay [] (cfg.env.map (fun kv => (expandStr env kv.1, expandStr env kv.2)))
    build := { cfg.build with
      ldflags := cfg.build.ldflags.map (expandStr env)
      vars := overlay [] (cfg.build.vars.map (fun kv => (expandStr env kv.1, expandStr env kv.2)))
      tags := cfg.build.tags.map (expandStr env)
      gcflags := expandStr env cfg.build.gcflags
      asmflags := expandStr env cfg.build.asmflags
      mod := expandStr env cfg.build.mod }
    targets := cfg.targets.map (fun t =>
      { os := expandStr env t.os
        arch := expandStr env t.arch
        output := expandStr env t.output
        env := overlay [] (t.env.map (fun kv => (expandStr env kv.1, expandStr env kv.2)))
        verifyStatic := t.verifyStatic })
    docker := cfg.docker }

/- ──────────────────── expander lemmas ──────────────────── -/

theorem take_length_append (x y : List Char) : (x ++ y).take x.length = x := by
  induction x with
  | nil => rfl
  | cons c rest ih => simp [ih]

theorem goExpand_literal (mapping : String → String) (l : List Char)
    (h : '$' ∉ l) : goExpand mapping l = l := by
  induction l with
  | nil => simp [goExpand]
  | cons c rest ih =>
      simp only [List.mem_cons] at h
      push_neg at h
      have hc : ¬ (c = '$') := fun e => h.1 e.symm
      simp [goExpand, hc, ih h.2]

theorem goExpand_append_literal (mapping : String → String)
    (pre rest : List Char) (h : '$' ∉ pre) :
    goExpand mapping (pre ++ rest) = pre ++ goExpand mapping rest := by
  induction pre with
  | nil => rfl
  | cons c p ih =>
      simp only [List.mem_cons] at h
      push_neg at h
      have hc : ¬ (c = '$') := fun e => h.1 e.symm
      simp [goExpand, hc, ih h.2]

theorem findClose_notin (l : List Char) (h : '\x7d' ∉ l) :
    findClose l = none := by
  induction l with
  | nil => rfl
  | cons c rest ih =>
      simp only [List.mem_cons] at h
      push_neg at h
      have hc : ¬ (c = '\x7d') := fun e => h.1 e.symm
      simp [findClose, hc, ih h.2]

theorem findClose_append (l tail : List Char) (h : '\x7d' ∉ l) :
    findClose (l ++ '\x7d' :: tail) = some l.length := by
  induction l with
  | nil => simp [findClose]
  | cons c rest ih =>
      simp only [List.mem_cons] at h
      push_neg at h
      have hc : ¬ (c = '\x7d') := fun e => h.1 e.symm
      simp [findClose, hc, ih h.2]

theorem bracePart_result (k tail : List Char) (hne : k ≠ [])
    (hnb : '\x7d' ∉ k) :
    bracePart (k ++ '\x7d' :: tail) = (String.mk k, k.length + 2) := by
  have hfc := findClose_append k tail hnb
  have hlen : ¬ (k.length = 0) := by
    cases k with
    | nil => exact absurd rfl hne
    | cons a b => simp
  simp [bracePart, hfc, hlen, take_length_append]

theorem getShellName_brace (k tail : List Char) (hne : k ≠ [])
    (hnb : '\x7d' ∉ k) :
    getShellName ('\x7b' :: (k ++ '\x7d' :: tail))
      = (String.mk k, k.length + 2) := by
  match k, hne with
  | [k0], _ =>
      have hbp := bracePart_result [k0] tail (by simp) hnb
      by_cases hsp : isShellSpecialVar k0 = true
      · simp [getShellName, hsp]
      · have hsp2 : isShellSpecialVar k0 = false := by
          revert hsp
          cases isShellSpecialVar k0 <;> simp
        simpa [getShellName, hsp2] using hbp
  | k0 :: k1 :: krest, _ =>
      have hk1 : ¬ (k1 = '\x7d') := by
        intro h
        exact hnb (by simp [h])
      have hk1b : (k1 == '\x7d') = false := by
        simpa using hk1
      have hbp := bracePart_result (k0 :: k1 :: krest) tail (by simp) hnb
      simpa [getShellName, hk1b] using hbp

theorem getShellName_unterminated (post : List Char) (hb : '\x7d' ∉ post) :
    getShellName ('\x7b' :: post) = ("", 1) := by
  have hfc := findClose_notin post hb
  match post with
  | [] => simp [getShellName, bracePart, findClose]
  | [c1] => simp [getShellName, bracePart, hfc]
  | c1 :: c2 :: rest =>
      have hc2 : ¬ (c2 = '\x7d') := by
        intro h
        exact hb (by simp [h])
      have hc2b : (c2 == '\x7d') = false := by
        simpa using hc2
      simp [getShellName, hc2b, bracePart, hfc]

theorem goExpand_brace (mapping : String → String) (k tail : List Char)
    (hne : k ≠ []) (hnb : '\x7d' ∉ k) :
    goExpand mapping ('$' :: '\x7b' :: (k ++ '\x7d' :: tail))
      = (mapping (String.mk k)).data ++ goExpand mapping tail := by
  have hg := getShellName_brace k tail hne hnb
  have hmkne : ¬ (String.mk k = "") := fun hh => hne (congrArg String.data hh)
  have hdrop : (('\x7b' :: (k ++ '\x7d' :: tail))).drop (k.length + 2) = tail := by
    show (k ++ '\x7d' :: tail).drop (k.length + 1) = tail
    have h1 : k ++ '\x7d' :: tail = (k ++ ['\x7d']) ++ tail := by simp
    have h2 : k.length + 1 = (k ++ ['\x7d']).length := by simp
    rw [h1, h2, drop_length_append]
  rw [goExpand]
  simp [hg, hmkne, hdrop]

theorem goExpand_unterminated (mapping : String → String) (post : List Char)
    (hb : '\x7d' ∉ post) (hd : '$' ∉ post) :
    goExpand mapping ('$' :: '\x7b' :: post) = post := by
  have hg := getShellName_unterminated post hb
  rw [goExpand]
  simp [hg, goExpand_literal mapping post hd]

theorem indexOfColonDash_none (l : List Char) (h : ':' ∉ l) :
    indexOfColonDash l = none := by
  induction l with
  | nil => rfl
  | cons c rest ih =>
      simp only [List.mem_cons] at h
      push_neg at h
      have hc : ¬ (c = ':') := fun e => h.1 e.symm
      simp [indexOfColonDash, hc, ih h.2]

theorem indexOfColonDash_boundary (name d : List Char) (h : ':' ∉ name) :
    indexOfColonDash (name ++ ':' :: '-' :: d) = some name.length := by
  induction name with
  | nil => simp [indexOfColonDash]
  | cons c rest ih =>
      simp only [List.mem_cons] at h
      push_neg at h
      have hc : ¬ (c = ':') := fun e => h.1 e.symm
      simp [indexOfColonDash, hc, ih h.2]

/-- Expansion of a standalone defaulted reference: the environment value
when the variable is set non-empty, the literal default otherwise. -/
theorem expandStr_default (env : EnvMap) (name d : String)
    (hne : name.data ≠ []) (hnb : '\x7d' ∉ name.data)
    (hnc : ':' ∉ name.data) (hdb : '\x7d' ∉ d.data) :
    expandStr env ("$\x7b" ++ name ++ ":-" ++ d ++ "\x7d")
      = match getEnv env name with
        | some v => if v ≠ "" then v else d
        | none => d := by
  have e1 : ("$\x7b" : String).data = ['$', '\x7b'] := rfl
  have e2 : ((":-") : String).data = [':', '-'] := rfl
  have e3 : (("\x7d") : String).data = ['\x7d'] := rfl
  have hdata : ("$\x7b" ++ name ++ ":-" ++ d ++ "\x7d" : String).data
      = '$' :: '\x7b' :: ((name.data ++ ':' :: '-' :: d.data) ++ '\x7d' :: []) := by
    simp [String.data_append, e1, e2, e3]
  have hkne : name.data ++ ':' :: '-' :: d.data ≠ [] := by simp
  have hknb : '\x7d' ∉ name.data ++ ':' :: '-' :: d.data := by
    intro hmem
    rcases List.mem_append.mp hmem with h1 | h1
    · exact hnb h1
    · simp only [List.mem_cons] at h1
      rcases h1 with h1 | h1 | h1
      · exact absurd h1 (by decide)
      · exact absurd h1 (by decide)
      · exact hdb h1
  show String.mk (goExpand (expandMapping env)
      ("$\x7b" ++ name ++ ":-" ++ d ++ "\x7d" : String).data) = _
  rw [hdata, goExpand_brace _ _ [] hkne hknb]
  have hnil : goExpand (expandMapping env) [] = [] := by simp [goExpand]
  rw [hnil, List.append_nil]
  show expandMapping env (String.mk (name.data ++ ':' :: '-' :: d.data)) = _
  have hidx : indexOfColonDash
      (String.mk (name.data ++ ':' :: '-' :: d.data)).data
      = some name.data.length :=
    indexOfColonDash_boundary name.data d.data hnc
  have htake : (name.data ++ ':' :: '-' :: d.data).take name.data.length
      = name.data := take_length_append name.data _
  have hdrop : (name.data ++ ':' :: '-' :: d.data).drop (name.data.length + 2)
      = d.data := by
    have h1 : name.data ++ ':' :: '-' :: d.data
        = (name.data ++ [':', '-']) ++ d.data := by simp
    have h2 : name.data.length + 2 = (name.data ++ [':', '-']).length := by simp
    rw [h1, h2, drop_length_append]
  simp only [expandMapping, hidx, htake, hdrop]

/-- Expansion of a standalone plain reference: the environment value,
defaulting to the empty string. -/
theorem expandStr_plain (env : EnvMap) (name : String)
    (hne : name.data ≠ []) (hnb : '\x7d' ∉ name.data)
    (hnc : ':' ∉ name.data) :
    expandStr env ("$\x7b" ++ name ++ "\x7d") = (getEnv env name).getD "" := by
  have e1 : ("$\x7b" : String).data = ['$', '\x7b'] := rfl
  have e3 : (("\x7d") : String).data = ['\x7d'] := rfl
  have hdata : ("$\x7b" ++ name ++ "\x7d" : String).data
      = '$' :: '\x7b' :: (name.data ++ '\x7d' :: []) := by
    simp [String.data_append, e1, e3]
  show String.mk (goExpand (expandMapping env)
      ("$\x7b" ++ name ++ "\x7d" : String).data) = _
  rw [hdata, goExpand_brace _ _ [] hne hnb]
  have hnil : goExpand (expandMapping env) [] = [] := by simp [goExpand]
  rw [hnil, List.append_nil]
  show expandMapping env (String.mk name.data) = _
  have hidx : indexOfColonDash (String.mk name.data).data = none :=
    indexOfColonDash_none name.data hnc
  simp only [expandMapping, hidx]

/- ──────────────────────── claim C3 ──────────────────────── -/

/-- C3: a reference with a default resolves to the environment value of
the name when it is set non-empty and to the literal (unexpanded)
default text otherwise; a plain reference to an unset name resolves to
the empty string; the VERSION scenario resolves to dev when unset and
2.0 when set. -/
theorem expandStr_placeholder (env : EnvMap) (name d : String)
    (hne : name.data ≠ []) (hnb : '\x7d' ∉ name.data)
    (hnc : ':' ∉ name.data) (hdb : '\x7d' ∉ d.data) :
    (expandStr env ("$\x7b" ++ name ++ ":-" ++ d ++ "\x7d")
        = match getEnv env name with
          | some v => if v ≠ "" then v else d
          | none => d)
    ∧ (getEnv env name = none →
        expandStr env ("$\x7b" ++ name ++ "\x7d") = "")
    ∧ expandStr [] "$\x7bVERSION:-dev\x7d" = "dev"
    ∧ expandStr [("VERSION", "2.0")] "$\x7bVERSION:-dev\x7d" = "2.0" := by
  refine ⟨expandStr_default env name d hne hnb hnc hdb, ?_, ?_, ?_⟩
  · intro h0
    rw [expandStr_plain env name hne hnb hnc, h0]
    rfl
  · have h := expandStr_default [] "VERSION" "dev"
      (by decide) (by decide) (by decide) (by decide)
    have hs : ("$\x7bVERSION:-dev\x7d" : String)
        = "$\x7b" ++ "VERSION" ++ ":-" ++ "dev" ++ "\x7d" := by decide
    rw [hs, h]
    decide
  · have h := expandStr_default [("VERSION", "2.0")] "VERSION" "dev"
      (by decide) (by decide) (by decide) (by decide)
    have hs : ("$\x7bVERSION:-dev\x7d" : String)
        = "$\x7b" ++ "VERSION" ++ ":-" ++ "dev" ++ "\x7d" := by decide
    rw [hs, h]
    decide

/-- C3 witness: the placeholder theorem applied at the scenario name and
default. -/
theorem expandStr_placeholder_witness :
    expandStr [] ("$\x7b" ++ "VERSION" ++ ":-" ++ "dev" ++ "\x7d")
      = match getEnv ([] : EnvMap) "VERSION" with
        | some v => if v ≠ "" then v else "dev"
        | none => "dev" :=
  (expandStr_placeholder [] "VERSION" "dev"
    (by decide) (by decide) (by decide) (by decide)).1

/- ──────────────────────── claim C7 ──────────────────────── -/

/-- C7 counterexample: an unterminated reference is not passed through
unchanged — expanding "abc$\x7bdef" consumes the two characters of the
malformed opener and yields "abcdef", not the original string. -/
theorem expandStr_unterminated_counterexample :
    expandStr [] "abc$\x7bdef" = "abcdef"
    ∧ expandStr [] "abc$\x7bdef" ≠ "abc$\x7bdef" := by
  have h1 : expandStr [] "abc$\x7bdef" = "abcdef" := by
    have hdata : ("abc$\x7bdef" : String).data
        = ['a', 'b', 'c'] ++ '$' :: '\x7b' :: ['d', 'e', 'f'] := rfl
    show String.mk (goExpand (expandMapping [])
        ("abc$\x7bdef" : String).data) = "abcdef"
    rw [hdata, goExpand_append_literal _ _ _ (by decide),
      goExpand_unterminated _ _ (by decide) (by decide)]
    rfl
  refine ⟨h1, ?_⟩
  rw [h1]
  decide

/-- C7 (amended): expansion raises no error on an unterminated
reference, but the malformed substring is not kept verbatim: the two
opener characters are consumed and only the text after them passes
through as literal text. -/
theorem expandStr_unterminated_literal (env : EnvMap) (pre post : String)
    (hpre : '$' ∉ pre.data) (hb : '\x7d' ∉ post.data)
    (hd : '$' ∉ post.data) :
    expandStr env (pre ++ "$\x7b" ++ post) = pre ++ post := by
  have e1 : ("$\x7b" : String).data = ['$', '\x7b'] := rfl
  have hdata : (pre ++ "$\x7b" ++ post).data
      = pre.data ++ '$' :: '\x7b' :: post.data := by
    simp [String.data_append, e1]
  show String.mk (goExpand (expandMapping env)
      (pre ++ "$\x7b" ++ post).data) = pre ++ post
  rw [hdata, goExpand_append_literal _ _ _ hpre,
    goExpand_unterminated _ _ hb hd, ← String.data_append]

/-- C7 witness: the amended theorem applied at the counterexample
input. -/
theorem expandStr_unterminated_witness :
    expandStr [] ("abc" ++ "$\x7b" ++ "def") = "abc" ++ "def" :=
  expandStr_unterminated_literal [] "abc" "def"
    (by decide) (by decide) (by decide)
